import Mathlib

/-!
Verification of the web-serial-plotter stream-ingestion and viewport glue.

The embedding covers:
* the incoming-line parser of src/src/App.tsx (handleIncomingLine),
* the pan / momentum / freeze handlers of src/src/App.tsx,
* the connection manager of src/unnamed/part_001 (useDataConnection),
* the serial write path of src/unnamed/part_001 and src/unnamed/part_000,
* the newline-framing read loop of src/unnamed/part_000 (connect),
* a ring-buffer store modelled from the specification (the store itself is
  not part of the provided sources; only its callers are).

Strings of the TypeScript code are embedded as List Char so that the
character-level splitting of the source is modelled exactly.  JS numbers
are embedded as rationals; the JS Number conversion applied to a token is
abstracted as a function of type List Char -> Option Rat, where none
models a non-finite conversion result (NaN or an infinity), exactly the
values rejected by the Number.isFinite filter in the source.
-/

namespace WebSerialPlotter

/-- Model of the character class of the JS regex fragment \s (whitespace)
as it is used by both String.prototype.trim and the split regex in
handleIncomingLine. -/
def isWs (c : Char) : Bool :=
  c = ' ' || c = '\t' || c = '\n' || c = '\r'

/-- Model of the delimiter class of the split regex /[\s,\t]+/ in
handleIncomingLine: whitespace, comma or tab. -/
def isDelim (c : Char) : Bool :=
  isWs c || c = ','

/-- Model of JS String.prototype.trim: drop whitespace from both ends. -/
def trimWs (l : List Char) : List Char :=
  ((l.dropWhile isWs).reverse.dropWhile isWs).reverse

/-- Tokenizer accumulator: splits on runs of delimiters, dropping empty
pieces.  This models line.split(/[\s,\t]+/).filter(Boolean) from
handleIncomingLine: splitting on maximal delimiter runs and discarding
the empty strings that the JS split produces at the ends. -/
def splitTokensAux (acc : List Char) : List Char → List (List Char)
  | [] => if acc = [] then [] else [acc.reverse]
  | c :: rest =>
      if isDelim c then
        if acc = [] then splitTokensAux [] rest
        else acc.reverse :: splitTokensAux [] rest
      else
        splitTokensAux (c :: acc) rest

/-- Split a character list into the nonempty tokens separated by
whitespace, commas and tabs. -/
def splitTokens (l : List Char) : List (List Char) :=
  splitTokensAux [] l

/-- Model of line.replace(/^\s*#+\s*/, ''): if the first non-whitespace
character is a hash, remove the leading whitespace, the run of hashes and
the whitespace after it; otherwise the regex does not match and the line
is returned unchanged. -/
def stripHeader (l : List Char) : List Char :=
  let l1 := l.dropWhile isWs
  match l1 with
  | '#' :: _ => (l1.dropWhile (fun c => c = '#')).dropWhile isWs
  | _ => l

/-- The effect a parsed line has on the data store: a header line sets the
series names, a data line appends one row of finite values, anything else
has no effect. -/
inductive LineAction where
  | idle : LineAction
  | setSeries (names : List (List Char)) : LineAction
  | append (values : List ℚ) : LineAction
deriving DecidableEq, Repr

/-- Embedding of handleIncomingLine from src/src/App.tsx (lines 31-51),
restricted to its store effect.  num models the composite of JS Number
conversion and the Number.isFinite filter on one token: none when the
converted value is non-finite. -/
def handleIncomingLine (num : List Char → Option ℚ) (line : List Char) :
    LineAction :=
  if (trimWs line).head? = some '#' then
    let names := splitTokens (stripHeader line)
    if names.length > 0 then .setSeries names else .idle
  else
    let parts := splitTokens (trimWs line)
    if parts.length = 0 then .idle
    else
      let values := parts.filterMap num
      if values.length > 0 then .append values else .idle

/-- Modelled from the spec: the Ring Buffer Store of section 3 and 4.2 of
spec.md (the dataStore module is not among the provided sources; only its
callers are).  capacity is C, rows the retained rows in chronological
order, total the count T of rows ever appended. -/
structure RingState where
  capacity : Nat
  rows : List (List ℚ)
  total : Nat
deriving DecidableEq, Repr

/-- Modelled from the spec: append writes one row at global index T,
increments T, and evicts the oldest rows so that never more than
capacity rows are kept (section 4.2 of spec.md). -/
def ringAppend (v : List ℚ) (s : RingState) : RingState :=
  { s with
    rows := (s.rows ++ [v]).drop ((s.rows.length + 1) - s.capacity)
    total := s.total + 1 }

/-- Run a sequence of appends against an empty store of capacity c. -/
def runAppends (c : Nat) (vs : List (List ℚ)) : RingState :=
  vs.foldl (fun s v => ringAppend v s) ⟨c, [], 0⟩

/-- Modelled from the spec: the data store visible to handleIncomingLine,
a channel registry (section 4.1 of spec.md) over a ring buffer. -/
structure Store where
  series : List (List Char)
  ring : RingState
deriving DecidableEq, Repr

/-- Modelled from the spec: setSeries clears all stored rows when the
names differ from the current registry and is a no-op otherwise
(section 4.1 of spec.md). -/
def storeSetSeries (names : List (List Char)) (s : Store) : Store :=
  if names = s.series then s
  else { series := names, ring := { s.ring with rows := [], total := 0 } }

/-- Modelled from the spec: append drops rows whose length differs from
the channel count, otherwise appends to the ring (section 4.2 of
spec.md). -/
def storeAppend (values : List ℚ) (s : Store) : Store :=
  if values.length = s.series.length then { s with ring := ringAppend values s.ring }
  else s

/-- Apply the store effect of one parsed line. -/
def applyAction : LineAction → Store → Store
  | .idle, s => s
  | .setSeries ns, s => storeSetSeries ns s
  | .append vs, s => storeAppend vs s

/-- Viewport and momentum state of the data store, as read and written by
the handlers in src/src/App.tsx.  cursor is the offset back from the live
edge, retained the number of retained rows, windowSize the zoom width.
momentum is the velocity of the in-flight decay animation, none when no
animation is active. -/
structure ViewportState where
  cursor : ℚ
  frozen : Bool
  momentum : Option ℚ
  retained : Nat
  windowSize : Nat
deriving DecidableEq, Repr

/-- Modelled from the spec: the upper clamp bound for the cursor,
max(0, retained - windowSize) (section 3 of spec.md); Nat subtraction
realises the outer max. -/
def cursorHi (s : ViewportState) : ℚ :=
  ((s.retained - s.windowSize : Nat) : ℚ)

/-- Modelled from the spec: setViewPortCursor clamps its argument into
the valid range rather than failing (section 4.3 of spec.md). -/
def setViewPortCursor (v : ℚ) (s : ViewportState) : ViewportState :=
  { s with cursor := max 0 (min v (cursorHi s)) }

/-- Modelled from the spec: getViewPortCursor returns the cursor
(section 4.3 of spec.md). -/
def getViewPortCursor (s : ViewportState) : ℚ := s.cursor

/-- Modelled from the spec: getFrozen returns the frozen flag
(section 4.3 of spec.md). -/
def getFrozen (s : ViewportState) : Bool := s.frozen

/-- Modelled from the spec: entering frozen mode preserves the cursor;
leaving frozen mode resets the cursor to 0 and cancels any active
momentum (section 4.3 of spec.md). -/
def setFrozen (b : Bool) (s : ViewportState) : ViewportState :=
  if b then { s with frozen := true }
  else { s with frozen := false, cursor := 0, momentum := none }

/-- Modelled from the spec: stopMomentum cancels any in-flight decay
animation and is idempotent (section 4.4 of spec.md). -/
def stopMomentum (s : ViewportState) : ViewportState :=
  { s with momentum := none }

/-- Modelled from the spec: startMomentum begins a decay animation with
the given initial velocity, implicitly cancelling a previous one
(section 4.4 of spec.md). -/
def startMomentum (v : ℚ) (s : ViewportState) : ViewportState :=
  { s with momentum := some v }

/-- Embedding of the onPanStart handler of src/src/App.tsx
(lines 142-147): stop momentum, then freeze if not already frozen. -/
def onPanStart (s : ViewportState) : ViewportState :=
  let s1 := stopMomentum s
  if getFrozen s1 = false then setFrozen true s1 else s1

/-- Embedding of the onPanDelta handler of src/src/App.tsx
(lines 148-150): setViewPortCursor(getViewPortCursor() - delta). -/
def onPanDelta (delta : ℚ) (s : ViewportState) : ViewportState :=
  setViewPortCursor (getViewPortCursor s - delta) s

/-- Embedding of the onPanEnd handler of src/src/App.tsx
(lines 151-153): startMomentum(-endV). -/
def onPanEnd (endV : ℚ) (s : ViewportState) : ViewportState :=
  startMomentum (-endV) s

/-- Embedding of the onToggleFrozen handler of src/src/App.tsx
(lines 161-169): stop momentum; freeze when live, otherwise reset the
cursor to 0 and resume live mode. -/
def onToggleFrozen (s : ViewportState) : ViewportState :=
  let s1 := stopMomentum s
  if getFrozen s1 = false then setFrozen true s1
  else setFrozen false (setViewPortCursor 0 s1)

/-- A concrete instance of the token-to-number conversion, used to
evaluate the parser theorems on closed inputs: decimal digit strings,
optionally signed, convert to the corresponding integer; everything else
is treated as a non-finite conversion. -/
def numSimple (t : List Char) : Option ℚ :=
  match t with
  | [] => none
  | '-' :: ds =>
      if ds ≠ [] ∧ ds.all (fun c => c.isDigit) then
        some (-(ds.foldl (fun a c => a * 10 + (c.toNat - 48)) 0 : ℤ))
      else none
  | ds =>
      if ds.all (fun c => c.isDigit) then
        some ((ds.foldl (fun a c => a * 10 + (c.toNat - 48)) 0 : ℤ))
      else none

/-- The two data-source kinds of src/unnamed/part_001. -/
inductive ConnectionType where
  | serial : ConnectionType
  | generator : ConnectionType
deriving DecidableEq, Repr

/-- Connection-manager state of useDataConnection (src/unnamed/part_001):
whether the serial port is connected, whether the signal generator is
running, and the recorded connection type. -/
structure ConnState where
  serialConnected : Bool
  generatorRunning : Bool
  connType : Option ConnectionType
deriving DecidableEq, Repr

/-- Initial connection state: nothing connected, type null. -/
def connInit : ConnState := ⟨false, false, none⟩

/-- Embedding of connectSerial from src/unnamed/part_001 (lines 61-82):
stop the generator if it is running, then attempt the serial connection.
ok records whether serial.connect succeeded; on failure the connection
type is reset to null. -/
def connectSerial (ok : Bool) (s : ConnState) : ConnState :=
  let s1 := if s.generatorRunning then { s with generatorRunning := false } else s
  if ok then { s1 with serialConnected := true, connType := some .serial }
  else { s1 with serialConnected := false, connType := none }

/-- Embedding of connectGenerator from src/unnamed/part_001
(lines 84-100): disconnect the serial port if it is connected, record the
generator type, then start the generator.  ok records whether
generator.start succeeded; on failure the type is reset to null and the
running flag is left as it was. -/
def connectGenerator (ok : Bool) (s : ConnState) : ConnState :=
  let s1 := if s.serialConnected then { s with serialConnected := false } else s
  if ok then { s1 with generatorRunning := true, connType := some .generator }
  else { s1 with connType := none }

/-- Embedding of disconnect from src/unnamed/part_001 (lines 102-114):
disconnect the serial port if connected, stop the generator if running,
reset the connection type to null. -/
def disconnectConn (s : ConnState) : ConnState :=
  let s1 := if s.serialConnected then { s with serialConnected := false } else s
  let s2 := if s1.generatorRunning then { s1 with generatorRunning := false } else s1
  { s2 with connType := none }

/-- One operation on the connection manager. -/
inductive ConnOp where
  | connectSerial (ok : Bool) : ConnOp
  | connectGenerator (ok : Bool) : ConnOp
  | disconnect : ConnOp
deriving DecidableEq, Repr

/-- Apply one connection operation. -/
def applyConnOp (s : ConnState) : ConnOp → ConnState
  | .connectSerial ok => connectSerial ok s
  | .connectGenerator ok => connectGenerator ok s
  | .disconnect => disconnectConn s

/-- Run a sequence of connection operations from the initial state. -/
def runConnOps (ops : List ConnOp) : ConnState :=
  ops.foldl applyConnOp connInit

/-- At most one data source is active: serial and generator are never
both on. -/
def atMostOneSource (s : ConnState) : Prop :=
  (s.serialConnected && s.generatorRunning) = false

/-- UTF-8 encoding of one Unicode code point, as performed by the JS
TextEncoder used in the write path of src/unnamed/part_000
(lines 169-183). -/
def utf8Bytes (n : Nat) : List Nat :=
  if n < 0x80 then [n]
  else if n < 0x800 then
    [0xC0 + n / 64, 0x80 + n % 64]
  else if n < 0x10000 then
    [0xE0 + n / 4096, 0x80 + n / 64 % 64, 0x80 + n % 64]
  else
    [0xF0 + n / 262144, 0x80 + n / 4096 % 64, 0x80 + n / 64 % 64, 0x80 + n % 64]

/-- UTF-8 encoding of a string, one code point at a time, modelling
new TextEncoder().encode(data). -/
def utf8Encode (s : String) : List Nat :=
  (s.data.map (fun c => utf8Bytes c.toNat)).flatten

/-- Embedding of write from src/unnamed/part_000 (lines 169-183): with no
writer it throws the not-connected error, otherwise it UTF-8-encodes the
data and hands the bytes to the writer.  The writer is modelled as a sink
that accepts the bytes; the result carries the bytes that reach it. -/
def serialWrite (writer : Option Unit) (data : String) :
    Except String (List Nat) :=
  match writer with
  | none => .error "Serial port not connected"
  | some _ => .ok (utf8Encode data)

/-- Embedding of write from src/unnamed/part_001 (lines 121-126): throw
the not-connected error unless the connection type is serial and the
serial port is connected, otherwise delegate to the serial write. -/
def writeConn (t : Option ConnectionType) (connected : Bool)
    (writer : Option Unit) (data : String) : Except String (List Nat) :=
  if ¬ (t = some .serial) ∨ connected = false then
    .error "Serial port not connected"
  else serialWrite writer data

/-- Model of line.replace(/\r$/, '') in the read loop of
src/unnamed/part_000: remove at most one trailing carriage return. -/
def stripCR (l : List Char) : List Char :=
  if l.getLast? = some '\r' then l.dropLast else l

/-- Reference splitter for the newline framing: the newline-terminated
segments of a character stream (each without its terminating newline) and
the remainder after the last newline. -/
def splitNL : List Char → List (List Char) × List Char
  | [] => ([], [])
  | c :: rest =>
      if c = '\n' then
        let p := splitNL rest
        ([] :: p.1, p.2)
      else
        match splitNL rest with
        | ([], r) => ([], c :: r)
        | (l :: ls, r) => ((c :: l) :: ls, r)

/-- Embedding of the inner while loop of the read loop in
src/unnamed/part_000 (lines 136-143): while the buffer has a newline at
some index, deliver the slice before it with a trailing carriage return
stripped, and keep the slice after it.  Returns the delivered lines in
order and the final buffer. -/
def lineLoop (buf : List Char) : List (List Char) × List Char :=
  match h : buf.dropWhile (fun c => !(c = '\n')) with
  | [] => ([], buf)
  | _ :: tail =>
      let line := stripCR (buf.takeWhile (fun c => !(c = '\n')))
      let p := lineLoop tail
      (line :: p.1, p.2)
termination_by buf.length
decreasing_by
  have h1 : (buf.dropWhile (fun c => !(c = '\n'))).length ≤ buf.length :=
    (List.dropWhile_sublist _).length_le
  rw [h] at h1
  simp only [List.length_cons] at h1
  omega

/-- Embedding of the chunk loop of the read loop in src/unnamed/part_000
(lines 129-144): each decoded chunk is appended to the buffer, then all
complete lines are extracted and delivered.  Returns all delivered lines
in order and the final buffer. -/
def runChunks (buf : List Char) : List (List Char) → List (List Char) × List Char
  | [] => ([], buf)
  | ch :: chs =>
      let p := lineLoop (buf ++ ch)
      let q := runChunks p.2 chs
      (p.1 ++ q.1, q.2)

/-- Inverse of the newline splitter: rebuild the stream from the
segments (each followed by its newline) and the remainder.  Used to pin
down what splitNL computes. -/
def joinNL (p : List (List Char) × List Char) : List Char :=
  (p.1.map (fun l => l ++ ['\n'])).flatten ++ p.2

/-- Helper for C2: appending one element to a buffer that already keeps
only the last C elements of l keeps exactly the last C elements of
l ++ [v]. -/
theorem ring_drop_step (l : List (List ℚ)) (v : List ℚ) (C : Nat) :
    ((l.drop (l.length - C)) ++ [v]).drop
        ((l.drop (l.length - C)).length + 1 - C) =
      (l ++ [v]).drop (l.length + 1 - C) := by
  rcases Nat.lt_or_ge l.length C with h | h
  · have hz : l.length - C = 0 := Nat.sub_eq_zero_of_le (Nat.le_of_lt h)
    simp [hz]
  · have hd : (l.drop (l.length - C)).length = C := by
      simp only [List.length_drop]
      omega
    rw [hd]
    have h1 : C + 1 - C = 1 := by omega
    rw [h1]
    rcases Nat.eq_zero_or_pos C with hC | hC
    · subst hC
      have hz : l.length - 0 = l.length := rfl
      rw [hz, List.drop_length]
      have h2 : (l ++ [v]).length ≤ l.length + 1 - 0 := by simp
      rw [List.drop_of_length_le h2]
      rfl
    · have hle : 1 ≤ (l.drop (l.length - C)).length := by omega
      rw [List.drop_append_of_le_length hle, List.drop_drop]
      have h2 : l.length + 1 - C = 1 + (l.length - C) := by omega
      rw [h2]
      have h3 : 1 + (l.length - C) ≤ l.length := by omega
      rw [List.drop_append_of_le_length h3, Nat.add_comm 1 (l.length - C)]

/-- Claim C2: running any sequence of appends against an empty ring of
capacity C leaves total equal to the number of appends, exactly
min(total, C) retained rows, and the retained rows are the most recent
ones: the suffix of the appended sequence from position total - C on
(Nat subtraction realises max(0, total - C), the global index of the
oldest retained row, which is also exposed as the head of the retained
rows).  Quantifying over the sequence covers the state after every
call. -/
theorem c2_ring_invariant (C : Nat) (vs : List (List ℚ)) :
    (runAppends C vs).total = vs.length ∧
    (runAppends C vs).capacity = C ∧
    (runAppends C vs).rows.length = min vs.length C ∧
    (runAppends C vs).rows = vs.drop (vs.length - C) ∧
    (runAppends C vs).rows.head? = vs[vs.length - C]? := by
  have main : ∀ ws : List (List ℚ),
      (runAppends C ws).total = ws.length ∧
      (runAppends C ws).capacity = C ∧
      (runAppends C ws).rows = ws.drop (ws.length - C) := by
    intro ws
    induction ws using List.reverseRecOn with
    | nil => refine ⟨rfl, rfl, ?_⟩; simp [runAppends]
    | append_singleton ws v ih =>
        obtain ⟨ht, hc, hr⟩ := ih
        have hstep : runAppends C (ws ++ [v]) =
            ringAppend v (runAppends C ws) := by
          simp [runAppends, List.foldl_append]
        refine ⟨?_, ?_, ?_⟩
        · simp [hstep, ringAppend, ht]
        · simp [hstep, ringAppend, hc]
        · rw [hstep]
          show ((runAppends C ws).rows ++ [v]).drop
              ((runAppends C ws).rows.length + 1 - (runAppends C ws).capacity) =
            (ws ++ [v]).drop ((ws ++ [v]).length - C)
          rw [hr, hc]
          have hlen : (ws ++ [v]).length - C = ws.length + 1 - C := by simp
          rw [hlen]
          exact ring_drop_step ws v C
  obtain ⟨ht, hc, hr⟩ := main vs
  refine ⟨ht, hc, ?_, hr, ?_⟩
  · rw [hr]
    simp only [List.length_drop]
    omega
  · rw [hr]
    rcases Nat.lt_or_ge (vs.length - C) vs.length with hlt | hge
    · rw [List.drop_eq_getElem_cons hlt, List.getElem?_eq_getElem hlt]
      simp
    · rw [List.drop_of_length_le hge, List.getElem?_eq_none hge]
      rfl

/-- Claim C1: on a non-header line the parser tokenizes the trimmed line
on whitespace, commas and tabs, keeps the finite conversions in order,
and appends exactly those values; append happens if and only if at least
one finite value remains. -/
theorem c1_data_line (num : List Char → Option ℚ) (line : List Char)
    (h : ¬ (trimWs line).head? = some '#') :
    handleIncomingLine num line =
      (if (splitTokens (trimWs line)).filterMap num = [] then .idle
       else .append ((splitTokens (trimWs line)).filterMap num)) := by
  unfold handleIncomingLine
  rw [if_neg h]
  by_cases hp : splitTokens (trimWs line) = []
  · simp [hp]
  · have hlen : ¬ (splitTokens (trimWs line)).length = 0 := by
      simpa [List.length_eq_zero] using hp
    simp only [if_neg hlen]
    by_cases hv : (splitTokens (trimWs line)).filterMap num = []
    · simp [hv]
    · have hvl : 0 < ((splitTokens (trimWs line)).filterMap num).length :=
        List.length_pos.mpr hv
      simp [hv, hvl]

/-- Witness for C1 on the line 1, 2.x 3 with the simple converter: the
token 2.x is non-finite and dropped, the finite values 1 and 3 are
appended in order. -/
theorem c1_data_line_witness :
    ¬ (trimWs (' ' :: '1' :: ',' :: ' ' :: '2' :: '.' :: 'x' :: ' ' :: '3' :: [])).head? = some '#' ∧
    handleIncomingLine numSimple
        (' ' :: '1' :: ',' :: ' ' :: '2' :: '.' :: 'x' :: ' ' :: '3' :: []) =
      (if (splitTokens (trimWs (' ' :: '1' :: ',' :: ' ' :: '2' :: '.' :: 'x' :: ' ' :: '3' :: []))).filterMap numSimple = [] then .idle
       else .append ((splitTokens (trimWs (' ' :: '1' :: ',' :: ' ' :: '2' :: '.' :: 'x' :: ' ' :: '3' :: []))).filterMap numSimple)) :=
  ⟨by decide, c1_data_line numSimple _ (by decide)⟩

/-- Claim C3: on a header line the parser strips the leading hash run and
its surrounding whitespace, splits the remainder into names, and sets the
series exactly when the name list is nonempty; a header line never
appends. -/
theorem c3_header_line (num : List Char → Option ℚ) (line : List Char)
    (h : (trimWs line).head? = some '#') :
    handleIncomingLine num line =
      (if splitTokens (stripHeader line) = [] then .idle
       else .setSeries (splitTokens (stripHeader line))) := by
  unfold handleIncomingLine
  rw [if_pos h]
  by_cases hn : splitTokens (stripHeader line) = []
  · simp [hn]
  · have hnl : 0 < (splitTokens (stripHeader line)).length :=
      List.length_pos.mpr hn
    simp [hn, hnl]

/-- Witness for C3 on the header line # a b: the names a and b are set as
the series. -/
theorem c3_header_line_witness :
    (trimWs (' ' :: '#' :: '#' :: ' ' :: 'a' :: ' ' :: 'b' :: [])).head? = some '#' ∧
    handleIncomingLine numSimple (' ' :: '#' :: '#' :: ' ' :: 'a' :: ' ' :: 'b' :: []) =
      (if splitTokens (stripHeader (' ' :: '#' :: '#' :: ' ' :: 'a' :: ' ' :: 'b' :: [])) = [] then .idle
       else .setSeries (splitTokens (stripHeader (' ' :: '#' :: '#' :: ' ' :: 'a' :: ' ' :: 'b' :: [])))) :=
  ⟨by decide, c3_header_line numSimple _ (by decide)⟩

/-- Claim C4: a non-header line with no finite numeric token produces no
store call at all, and the store state is left unchanged; the handler is
a total function, so no input can raise. -/
theorem c4_no_effect (num : List Char → Option ℚ) (line : List Char)
    (s : Store) (h1 : ¬ (trimWs line).head? = some '#')
    (h2 : (splitTokens (trimWs line)).filterMap num = []) :
    handleIncomingLine num line = .idle ∧
    applyAction (handleIncomingLine num line) s = s := by
  have hmain : handleIncomingLine num line = .idle := by
    unfold handleIncomingLine
    rw [if_neg h1]
    by_cases hp : splitTokens (trimWs line) = []
    · simp [hp]
    · have hlen : ¬ (splitTokens (trimWs line)).length = 0 := by
        simpa [List.length_eq_zero] using hp
      simp [hlen, h2]
  exact ⟨hmain, by rw [hmain]; rfl⟩

/-- Witness for C4 on the line x, y (no numeric token) against a sample
store state. -/
theorem c4_no_effect_witness :
    ¬ (trimWs ('x' :: ',' :: ' ' :: 'y' :: [])).head? = some '#' ∧
    (splitTokens (trimWs ('x' :: ',' :: ' ' :: 'y' :: []))).filterMap numSimple = [] ∧
    (handleIncomingLine numSimple ('x' :: ',' :: ' ' :: 'y' :: []) = .idle ∧
      applyAction (handleIncomingLine numSimple ('x' :: ',' :: ' ' :: 'y' :: []))
        ⟨['a' :: []], ⟨3, [[1]], 1⟩⟩ = ⟨['a' :: []], ⟨3, [[1]], 1⟩⟩) :=
  ⟨by decide, by decide,
    c4_no_effect numSimple _ ⟨['a' :: []], ⟨3, [[1]], 1⟩⟩ (by decide) (by decide)⟩

/-- Claim C5: on every pan start the handler stops any active momentum
and ensures the viewport is frozen; the cursor is never changed, and when
the viewport was already frozen the frozen flag keeps its value true. -/
theorem c5_panStart_freezes (s : ViewportState) :
    (onPanStart s).momentum = none ∧
    (onPanStart s).frozen = true ∧
    (onPanStart s).cursor = s.cursor ∧
    (onPanStart s).retained = s.retained ∧
    (onPanStart s).windowSize = s.windowSize := by
  cases hf : s.frozen <;>
    simp [onPanStart, stopMomentum, setFrozen, getFrozen, hf]

/-- Claim C6: the pan-delta handler issues exactly
setViewPortCursor(getViewPortCursor() - delta), so the cursor becomes the
clamp of cursor - delta and nothing else changes; the pan-end handler
starts momentum with the negated final velocity. -/
theorem c6_panDelta_sign (delta endV : ℚ) (s : ViewportState) :
    onPanDelta delta s = setViewPortCursor (getViewPortCursor s - delta) s ∧
    (onPanDelta delta s).cursor = max 0 (min (s.cursor - delta) (cursorHi s)) ∧
    (onPanDelta delta s).frozen = s.frozen ∧
    (onPanDelta delta s).momentum = s.momentum ∧
    onPanEnd endV s = startMomentum (-endV) s ∧
    (onPanEnd endV s).momentum = some (-endV) := by
  simp [onPanDelta, onPanEnd, setViewPortCursor, getViewPortCursor,
    startMomentum]

/-- Claim C7: toggling freeze always cancels momentum; from frozen it
resumes live with the cursor reset to 0, from live it freezes without
changing the cursor. -/
theorem c7_toggleFrozen (s : ViewportState) :
    (onToggleFrozen s).momentum = none ∧
    (onToggleFrozen s).frozen = !s.frozen ∧
    (onToggleFrozen s).cursor = (if s.frozen then 0 else s.cursor) := by
  cases hf : s.frozen <;>
    simp [onToggleFrozen, stopMomentum, setFrozen, getFrozen,
      setViewPortCursor, hf]

/-- Helper for C8: every single connection operation leaves the manager
with at most one active data source, whatever the state before it. -/
theorem applyConnOp_atMostOne (s : ConnState) (op : ConnOp) :
    atMostOneSource (applyConnOp s op) := by
  cases op with
  | connectSerial ok =>
      cases ok <;> cases hg : s.generatorRunning <;>
        simp [applyConnOp, connectSerial, atMostOneSource, hg]
  | connectGenerator ok =>
      cases ok <;> cases hs : s.serialConnected <;>
        simp [applyConnOp, connectGenerator, atMostOneSource, hs]
  | disconnect =>
      cases hs : s.serialConnected <;> cases hg : s.generatorRunning <;>
        simp [applyConnOp, disconnectConn, atMostOneSource, hs, hg]

/-- Claim C8: connectSerial stops the generator before connecting,
connectGenerator disconnects the serial port before starting, disconnect
stops both sources and resets the type to null; consequently every
sequence of operations from the initial state keeps at most one data
source active. -/
theorem c8_single_source :
    (∀ (s : ConnState) (ok : Bool),
      (connectSerial ok s).generatorRunning = false) ∧
    (∀ (s : ConnState) (ok : Bool),
      (connectGenerator ok s).serialConnected = false) ∧
    (∀ s : ConnState, disconnectConn s = ⟨false, false, none⟩) ∧
    (∀ ops : List ConnOp, atMostOneSource (runConnOps ops)) := by
  refine ⟨?_, ?_, ?_, ?_⟩
  · intro s ok
    cases ok <;> cases hg : s.generatorRunning <;>
      simp [connectSerial, hg]
  · intro s ok
    cases ok <;> cases hs : s.serialConnected <;>
      simp [connectGenerator, hs]
  · intro s
    cases hs : s.serialConnected <;> cases hg : s.generatorRunning <;>
      simp [disconnectConn, hs, hg]
  · intro ops
    cases ops with
    | nil => simp [runConnOps, connInit, atMostOneSource]
    | cons op rest =>
        have key : ∀ (l : List ConnOp) (s : ConnState), atMostOneSource s →
            atMostOneSource (l.foldl applyConnOp s) := by
          intro l
          induction l with
          | nil => intro s hs; simpa using hs
          | cons a l2 ih =>
              intro s _
              simpa using ih (applyConnOp s a) (applyConnOp_atMostOne s a)
        simpa [runConnOps] using
          key rest (applyConnOp connInit op) (applyConnOp_atMostOne connInit op)

/-- Claim C9: write succeeds exactly when the connection type is serial,
the port is connected and a writer exists, in which case it forwards the
UTF-8 encoding of the data; in every other case it throws the error
message Serial port not connected. -/
theorem c9_write (t : Option ConnectionType) (c : Bool)
    (w : Option Unit) (d : String) :
    writeConn t c w d =
      (if t = some ConnectionType.serial ∧ c = true ∧ w = some () then
        Except.ok (utf8Encode d)
      else Except.error "Serial port not connected") ∧
    (writeConn t c w d = Except.error "Serial port not connected" ↔
      (¬ t = some ConnectionType.serial ∨ c = false ∨ w = none)) := by
  rcases w with _ | u
  · cases c <;> rcases t with _ | ct <;>
      simp [writeConn, serialWrite]
  · cases u
    cases c <;> rcases t with _ | ct
    · simp [writeConn, serialWrite]
    · cases ct <;> simp [writeConn, serialWrite]
    · simp [writeConn, serialWrite]
    · cases ct <;> simp [writeConn, serialWrite]

/-- splitNL on a stream starting with a newline: one empty segment, then
the split of the rest. -/
theorem splitNL_cons_nl (rest : List Char) :
    splitNL ('\n' :: rest) = ([] :: (splitNL rest).1, (splitNL rest).2) := by
  simp [splitNL]

/-- splitNL on a non-newline head when the tail has no complete segment:
the head joins the remainder. -/
theorem splitNL_cons_of_empty {c : Char} {rest : List Char}
    (hc : ¬ c = '\n') (h : (splitNL rest).1 = []) :
    splitNL (c :: rest) = ([], c :: (splitNL rest).2) := by
  simp only [splitNL, if_neg hc]
  rcases hp : splitNL rest with ⟨ls, r⟩
  rw [hp] at h
  simp only at h
  subst h
  simp

/-- splitNL on a non-newline head when the tail has a first segment: the
head joins that segment. -/
theorem splitNL_cons_of_seg {c : Char} {rest : List Char} {l : List Char}
    {ls : List (List Char)} (hc : ¬ c = '\n')
    (h : (splitNL rest).1 = l :: ls) :
    splitNL (c :: rest) = ((c :: l) :: ls, (splitNL rest).2) := by
  simp only [splitNL, if_neg hc]
  rcases hp : splitNL rest with ⟨ls0, r⟩
  rw [hp] at h
  simp only at h
  subst h
  simp

/-- Splitting a concatenation: the segments of a appear first, then the
remainder of a merges with b and is split in turn. -/
theorem splitNL_append (a b : List Char) :
    splitNL (a ++ b) =
      ((splitNL a).1 ++ (splitNL ((splitNL a).2 ++ b)).1,
       (splitNL ((splitNL a).2 ++ b)).2) := by
  induction a with
  | nil => simp [splitNL]
  | cons c a ih =>
      by_cases hc : c = '\n'
      · subst hc
        rw [List.cons_append, splitNL_cons_nl, splitNL_cons_nl, ih]
        simp
      · rcases hp : (splitNL a).1 with _ | ⟨l, ls⟩
        · rw [List.cons_append, splitNL_cons_of_empty hc hp,
            List.cons_append]
          rcases hq : (splitNL ((splitNL a).2 ++ b)).1 with _ | ⟨m, ms⟩
          · have hab : (splitNL (a ++ b)).1 = [] := by
              rw [ih, hp]
              simpa using hq
            rw [splitNL_cons_of_empty hc hab, splitNL_cons_of_empty hc hq,
              ih, hp]
            simp
          · have hab : (splitNL (a ++ b)).1 = m :: ms := by
              rw [ih, hp]
              simpa using hq
            rw [splitNL_cons_of_seg hc hab, splitNL_cons_of_seg hc hq,
              ih]
            simp
        · rw [List.cons_append, splitNL_cons_of_seg hc hp]
          have hab : (splitNL (a ++ b)).1 =
              l :: (ls ++ (splitNL ((splitNL a).2 ++ b)).1) := by
            rw [ih, hp]
            simp
          rw [splitNL_cons_of_seg hc hab, ih]
          simp

/-- A stream without newline has no complete segment: it is all
remainder. -/
theorem splitNL_of_no_nl {l : List Char} (h : '\n' ∉ l) :
    splitNL l = ([], l) := by
  induction l with
  | nil => rfl
  | cons c rest ih =>
      have hc : ¬ c = '\n' := fun hh => h (hh ▸ List.mem_cons_self c rest)
      have hr : '\n' ∉ rest := fun hm => h (List.mem_cons_of_mem _ hm)
      rw [splitNL_cons_of_empty hc (by rw [ih hr]), ih hr]

/-- Splitting a stream that starts with a newline-free segment followed
by a newline: that segment is delivered first. -/
theorem splitNL_pre_nl {pre : List Char} (t : List Char) (h : '\n' ∉ pre) :
    splitNL (pre ++ '\n' :: t) = (pre :: (splitNL t).1, (splitNL t).2) := by
  induction pre with
  | nil => simpa using splitNL_cons_nl t
  | cons c p ih =>
      have hc : ¬ c = '\n' := fun hh => h (hh ▸ List.mem_cons_self c p)
      have hp : '\n' ∉ p := fun hm => h (List.mem_cons_of_mem _ hm)
      rw [List.cons_append,
        splitNL_cons_of_seg hc (by rw [ih hp]), ih hp]

/-- No delivered segment and no remainder of splitNL contains a
newline. -/
theorem splitNL_no_nl (s : List Char) :
    (∀ l ∈ (splitNL s).1, '\n' ∉ l) ∧ '\n' ∉ (splitNL s).2 := by
  induction s with
  | nil => simp [splitNL]
  | cons c rest ih =>
      by_cases hc : c = '\n'
      · subst hc
        rw [splitNL_cons_nl]
        refine ⟨?_, ih.2⟩
        intro l hl
        rcases List.mem_cons.mp hl with hl0 | hl1
        · subst hl0; simp
        · exact ih.1 l hl1
      · rcases hq : (splitNL rest).1 with _ | ⟨m, ms⟩
        · rw [splitNL_cons_of_empty hc hq]
          refine ⟨by simp, ?_⟩
          intro hm
          rcases List.mem_cons.mp hm with hm0 | hm1
          · exact hc hm0.symm
          · exact ih.2 hm1
        · rw [splitNL_cons_of_seg hc hq]
          refine ⟨?_, ih.2⟩
          intro l hl
          rcases List.mem_cons.mp hl with hl0 | hl1
          · subst hl0
            intro hm
            rcases List.mem_cons.mp hm with hm0 | hm1
            · exact hc hm0.symm
            · exact ih.1 m (hq ▸ List.mem_cons_self m ms) hm1
          · exact ih.1 l (hq ▸ List.mem_cons_of_mem m hl1)

/-- splitNL loses nothing: segments and remainder rebuild the stream. -/
theorem joinNL_splitNL (s : List Char) : joinNL (splitNL s) = s := by
  induction s with
  | nil => rfl
  | cons c rest ih =>
      by_cases hc : c = '\n'
      · subst hc
        rw [splitNL_cons_nl]
        simpa [joinNL] using ih
      · rcases hq : (splitNL rest).1 with _ | ⟨m, ms⟩
        · rw [splitNL_cons_of_empty hc hq]
          rw [joinNL, hq] at ih
          simp only [joinNL]
          simpa using ih
        · rw [splitNL_cons_of_seg hc hq]
          rw [joinNL, hq] at ih
          simp only [joinNL] at *
          simpa using ih

/-- The while loop of the read loop computes exactly the newline
segments, each with a trailing carriage return stripped, and keeps the
remainder. -/
theorem lineLoop_eq_splitNL (buf : List Char) :
    lineLoop buf = ((splitNL buf).1.map stripCR, (splitNL buf).2) := by
  induction buf using lineLoop.induct with
  | case1 buf h =>
      have hall : ∀ x ∈ buf, (!(x = '\n')) = true :=
        List.dropWhile_eq_nil_iff.mp h
      have hnl : '\n' ∉ buf := by
        intro hm
        have := hall '\n' hm
        simp at this
      rw [lineLoop, h, splitNL_of_no_nl hnl]
      simp
  | case2 buf c0 tail h ih =>
      have hc0 : c0 = '\n' := by
        have h0 : 0 < (buf.dropWhile (fun c => !(c = '\n'))).length := by
          rw [h]; simp
        have := List.dropWhile_get_zero_not (p := fun c => !(c = '\n')) buf h0
        have hget : (buf.dropWhile (fun c => !(c = '\n'))).get ⟨0, h0⟩ = c0 := by
          simp [h]
        rw [hget] at this
        simpa using this
      have hpre : '\n' ∉ buf.takeWhile (fun c => !(c = '\n')) := by
        intro hm
        have := List.mem_takeWhile_imp hm
        simp at this
      have hbuf : buf = buf.takeWhile (fun c => !(c = '\n')) ++ '\n' :: tail := by
        conv_lhs => rw [← List.takeWhile_append_dropWhile
          (p := fun c => !(c = '\n')) (l := buf)]
        rw [h, hc0]
      rw [lineLoop, h]
      simp only []
      rw [ih]
      conv_rhs => rw [hbuf, splitNL_pre_nl tail hpre]
      simp

/-- The chunk loop started on a newline-free buffer delivers exactly the
segment lines of the buffer followed by all chunks. -/
theorem runChunks_eq (cs : List (List Char)) :
    ∀ buf : List Char, '\n' ∉ buf →
    runChunks buf cs =
      ((splitNL (buf ++ cs.flatten)).1.map stripCR,
       (splitNL (buf ++ cs.flatten)).2) := by
  induction cs with
  | nil =>
      intro buf hb
      rw [runChunks]
      simp [splitNL_of_no_nl hb]
  | cons ch chs ih =>
      intro buf hb
      rw [runChunks]
      rw [lineLoop_eq_splitNL]
      rw [ih (splitNL (buf ++ ch)).2 (splitNL_no_nl (buf ++ ch)).2]
      have hflat : buf ++ (ch :: chs).flatten = (buf ++ ch) ++ chs.flatten := by
        simp
      rw [hflat, splitNL_append (buf ++ ch) chs.flatten]
      simp

/-- Claim C10: feeding the decoded stream in any chunking, the read loop
delivers exactly one line per newline-terminated segment of the whole
stream, in order, the terminating newline removed and at most one
trailing carriage return stripped (stripCR), and retains the characters
after the last newline in the buffer; segments and remainder never
contain a newline and reassemble the stream, so no partial line is ever
delivered. -/
theorem c10_read_loop_framing (cs : List (List Char)) :
    runChunks [] cs =
      ((splitNL cs.flatten).1.map stripCR, (splitNL cs.flatten).2) ∧
    joinNL (splitNL cs.flatten) = cs.flatten ∧
    (splitNL cs.flatten).1.all (fun l => !(l.contains '\n')) = true ∧
    (splitNL cs.flatten).2.contains '\n' = false := by
  refine ⟨?_, joinNL_splitNL cs.flatten, ?_, ?_⟩
  · simpa using runChunks_eq cs [] (by simp)
  · rw [List.all_eq_true]
    intro l hl
    have := (splitNL_no_nl cs.flatten).1 l hl
    simpa [List.contains] using this
  · have := (splitNL_no_nl cs.flatten).2
    simpa [List.contains] using this

end WebSerialPlotter
